import Mathlib

/-!
Verification development for the mpc repository.

Shallow embedding of:
  * `src/mpc-recovery/src/gcp/auth.rs` — the `TokenManager` access-token cache;
  * `src/integration-tests/tests/lib.rs` — cluster topology built by
    `with_nodes`, and the scenarios `test_trio` / `test_basic_action`;
  * `src/integration-tests/chain-signatures/src/main.rs` — the `SetupEnv`
    control flow of the cluster-setup entry point.

Components whose implementation is not part of the three source files
(`mpc_recovery::generate`, the leader signing protocol, the `new_account`
handler) are modelled from the specification; their doc comments start with
`Modelled from the spec:`.
-/

set_option autoImplicit false

namespace Auth

/-- Field-for-field embedding of `ApplicationCredentials` from
`src/mpc-recovery/src/gcp/auth.rs`. -/
structure ApplicationCredentials where
  cred_type : String
  project_id : String
  private_key_id : String
  private_key : String
  client_email : String
  client_id : String
  auth_uri : String
  token_uri : String
  auth_provider_x509_cert_url : String
  client_x509_cert_url : String
deriving DecidableEq, Repr

/-- `TokenValue` from auth.rs: a single variant `Bearer(String)`. -/
inductive TokenValue where
  | Bearer (token : String)
deriving DecidableEq, Repr

/-- The `fmt::Display` impl for `TokenValue`: writes `"Bearer {token}"`. -/
def TokenValue.render : TokenValue → String
  | .Bearer token => "Bearer " ++ token

/-- `Token` from auth.rs: a token value plus its stored expiry.  The
`DateTime<Utc>` expiry is embedded as an integer number of seconds. -/
structure Token where
  value : TokenValue
  expiry : Int
deriving DecidableEq, Repr

/-- The state of `TokenManager` from auth.rs.  The `hyper` HTTP client is pure
plumbing for the network request and carries no token state, so it is not part
of the embedded state; the network interaction itself is an explicit oracle
argument of `TokenManager.token`. -/
structure TokenManager where
  scopes : String
  creds : ApplicationCredentials
  current_token : Option Token
deriving DecidableEq, Repr

/-- `AuthResponse` from auth.rs: the deserialized OAuth response.  Only
`access_token` is deserialized; the response's `expires_in` is ignored by the
code. -/
structure AuthResponse where
  access_token : String
deriving DecidableEq, Repr

/-- Any of the fallible steps of the refresh branch of `token()` (JWT signing
with the RSA key, request building, the HTTP round trip, response parsing).
All of them happen before `self.current_token` is assigned. -/
inductive FetchError where
  | jwtEncode
  | requestBuild
  | http
  | responseParse
deriving DecidableEq, Repr

/-- `chrono::Duration::minutes` in seconds. -/
def minutes (m : Int) : Int := m * 60

/-- Result of one call to `TokenManager.token`: the returned value, the
`TokenManager` state after the call, and whether the refresh branch (a
credential fetch) was executed. -/
structure TokenCallResult where
  result : Except FetchError String
  state : TokenManager
  fetched : Bool
deriving Repr

/-- The refresh arm of the `match` in `token()` (auth.rs lines 84–119): compute
`expiry = current_time + 45 minutes`, run the fallible JWT/HTTP pipeline
(abstracted as the `fetch` oracle), and on success store
`Token { expiry, value = Bearer(access_token) }` into `current_token` and
return its rendered string.  On any error the state is returned unchanged,
since `self.current_token` is assigned only after every fallible step. -/
def TokenManager.refresh (self : TokenManager) (current_time : Int)
    (fetch : Except FetchError AuthResponse) : TokenCallResult :=
  let hour := minutes 45
  let expiry := current_time + hour
  match fetch with
  | .error e => ⟨.error e, self, true⟩
  | .ok ar =>
      let value := TokenValue.Bearer ar.access_token
      let token := value.render
      ⟨.ok token, { self with current_token := some ⟨value, expiry⟩ }, true⟩

/-- `TokenManager::token` (auth.rs lines 79–121).  The Rust match is
`Some(ref token) if token.expiry >= current_time => Ok(token.value.to_string())`
with the wildcard arm running the refresh pipeline. -/
def TokenManager.token (self : TokenManager) (current_time : Int)
    (fetch : Except FetchError AuthResponse) : TokenCallResult :=
  match self.current_token with
  | some token =>
      if token.expiry ≥ current_time then
        ⟨.ok token.value.render, self, false⟩
      else
        self.refresh current_time fetch
  | none => self.refresh current_time fetch

/-- Concrete credentials used by counterexamples and witnesses. -/
def sampleCreds : ApplicationCredentials :=
  ⟨"service_account", "p", "kid", "pem", "sa@p.iam", "cid", "a", "t", "ap", "cu"⟩

/-- A manager holding a cached token whose stored expiry is at time 1000. -/
def cachedAt1000 : TokenManager :=
  ⟨"scope", sampleCreds, some ⟨TokenValue.Bearer "tok", 1000⟩⟩

/-- The property asserted by the refresh-margin claim, parametrised by the
margin: every `token()` call made while the current time is within `margin`
of (and not past) the cached credential's stored expiry performs a fetch. -/
def refreshesWithinMargin (margin : Int) : Prop :=
  ∀ (tm : TokenManager) (tok : Token) (now : Int)
    (fetch : Except FetchError AuthResponse),
    tm.current_token = some tok →
    now ≤ tok.expiry →
    tok.expiry - now ≤ margin →
    (tm.token now fetch).fetched = true

/-- The refresh-margin claim: some fixed margin of at least ten minutes
triggers proactive refresh. -/
def proactiveRefreshClaim : Prop :=
  ∃ margin : Int, minutes 10 ≤ margin ∧ refreshesWithinMargin margin

end Auth

namespace MpcRecovery

/-- Evaluation of a polynomial given by its coefficient list (constant term
first), in Horner form. -/
def polyEval (coeffs : List Int) (x : Int) : Int :=
  coeffs.foldr (fun c acc => c + x * acc) 0

/-- The failure of `generate` on bad parameters. -/
inductive GenerateError where
  | InvalidParameters
deriving DecidableEq, Repr

/-- The public part of a `ThresholdKeySet`: the threshold and the aggregate
public key.  The group exponentiation deriving a public key from a secret is
modelled by the exponent itself. -/
structure PublicKeySet where
  threshold : Nat
  aggregate : Int
deriving DecidableEq, Repr

/-- One node's secret key share: the owning node's index and the secret
polynomial evaluated at that index. -/
structure SecretKeyShare where
  nodeIndex : Nat
  value : Int
deriving DecidableEq, Repr

/-- Modelled from the spec: `mpc_recovery::generate` is not under `src/` (the
tests only call it at lib.rs line 45).  Spec §4.1: `generate(n, t)` fails with
`InvalidParameters` if `t >= n` or `n == 0`; otherwise a random degree-t
secret polynomial is drawn (its coefficients are the explicit `coeffs`
argument here), each node's share is the polynomial evaluated at its index,
and the aggregate public key derives from the constant term. -/
def generate (coeffs : List Int) (n t : Nat) :
    Except GenerateError (PublicKeySet × List SecretKeyShare) :=
  if t ≥ n ∨ n = 0 then
    .error .InvalidParameters
  else
    let poly := coeffs.take (t + 1)
    .ok (⟨t, polyEval poly 0⟩,
      (List.range n).map fun i => ⟨i + 1, polyEval poly (i + 1)⟩)

/-- Modelled from the spec: a stand-in for hashing the signing payload into
the signature's message space. -/
def payloadHash (payload : String) : Int :=
  (payload.toList.map fun c => (c.toNat : Int)).sum

/-- Modelled from the spec (§4.3 Combining): the combined signature of a
payload under the aggregate key, as interpolated from a quorum of partial
signatures.  With public keys modelled by their exponents, the signature is a
function of the aggregate key and the payload hash. -/
def combinedSignature (aggregate : Int) (payload : String) : Int :=
  aggregate + payloadHash payload

/-- Modelled from the spec: `PublicKey::verify` from threshold_crypto as used
in the test at lib.rs line 134 — a signature verifies against a public key and
payload exactly when it is the combined signature for them. -/
def verify (pubkey sig : Int) (payload : String) : Bool :=
  sig == combinedSignature pubkey payload

/-- Terminal outcomes of the leader's orchestration relevant to the signing
scenario (spec §4.3). -/
inductive LeaderOutcome where
  | Completed (signature : Int)
  | QuorumTimeout
deriving DecidableEq, Repr

/-- Modelled from the spec: the leader protocol is not under `src/`.  Spec
§4.3/§8: dispatch goes to the nodes live at dispatch time; if at least `t+1`
of them are reachable the request completes with the combined signature,
otherwise it fails with `QuorumTimeout`. -/
def leaderOutcome (pk : PublicKeySet) (live : List Nat) (payload : String) :
    LeaderOutcome :=
  if pk.threshold + 1 ≤ live.length then
    .Completed (combinedSignature pk.aggregate payload)
  else
    .QuorumTimeout

end MpcRecovery

namespace IntegrationTests

/-- One node started by `with_nodes` (lib.rs lines 74–92): the integer index
passed to `SignNode::start`/`LeaderNode::start`, and the index into
`sk_shares` of the share handed to it. -/
structure NodeInstance where
  index : Nat
  shareIdx : Nat
deriving DecidableEq, Repr

/-- The loop `for i in 2..=nodes` (lib.rs lines 74–78): sign node `i` is
started with `sk_shares[i - 1]`. -/
def sign_nodes (nodes : Nat) : List NodeInstance :=
  (List.range (nodes - 1)).map fun k => ⟨k + 2, k + 1⟩

/-- `LeaderNode::start` (lib.rs lines 79–92): the leader is started with node
index 1 and `sk_shares[0]`. -/
def leader_node : NodeInstance := ⟨1, 0⟩

/-- All node processes started by `with_nodes`: the leader plus the sign
nodes. -/
def startedNodes (nodes : Nat) : List NodeInstance :=
  leader_node :: sign_nodes nodes

/-- The parties of a `with_nodes` run: the test-harness process itself and the
node containers. -/
inductive Party where
  | harness
  | node (index : Nat)
deriving DecidableEq, Repr

/-- lib.rs line 45: `mpc_recovery::generate(shares, threshold)` runs in the
test-harness process, so every share is created by the harness. -/
def shareCreator (_shareIdx : Nat) : Party := .harness

/-- The parties that handle `sk_shares[j]` during `with_nodes`: the harness
that creates it (line 45), plus any started node that receives it at start-up
(`&sk_shares[i - 1]` at line 76, `&sk_shares[0]` at line 84). -/
def shareHandlers (nodes j : Nat) : List Party :=
  .harness :: (startedNodes nodes).filterMap fun m =>
    if m.shareIdx = j then some (.node m.index) else none

/-- The literal arguments of the `with_nodes(4, 3, 3)` calls in `test_trio`
(lib.rs line 118) and `test_basic_action` (line 147): shares, threshold
argument, node count. -/
def with_nodes_args : Nat × Nat × Nat := (4, 3, 3)

end IntegrationTests

namespace LeaderApi

/-- Failures of the `new_account` handler (spec §7 taxonomy). -/
inductive NewAccountError where
  | Unauthorized
  | BadRequest
deriving DecidableEq, Repr

/-- On-chain state as observed through `view_access_keys` (lib.rs line 186):
each account id maps to its list of access keys. -/
structure ChainState where
  accounts : List (String × List String)
deriving DecidableEq, Repr

/-- `Worker::view_access_keys` as used by the test: the access keys of an
account, empty when the account does not exist. -/
def viewAccessKeys (st : ChainState) (a : String) : List String :=
  match st.accounts.find? (fun p => p.fst == a) with
  | some p => p.snd
  | none => []

/-- Modelled from the spec: the `new_account` handler is not under `src/` (the
test only calls it at lib.rs lines 171–179).  Spec §4.4/§8: with a valid
identity token, `new_account` creates the account bound to the given public
key — the created account carries that key as its access key; an invalid
token is `Unauthorized`, an already-existing account is a `BadRequest`. -/
def new_account (verify : String → Option String) (st : ChainState)
    (near_account_id oidc_token public_key : String) :
    Except NewAccountError ChainState :=
  match verify oidc_token with
  | none => .error .Unauthorized
  | some _subject =>
      if (st.accounts.map Prod.fst).contains near_account_id then
        .error .BadRequest
      else
        .ok ⟨(near_account_id, [public_key]) :: st.accounts⟩

/-- The identity verifier used by the tests: lib.rs line 152 notes that the
token "validToken" triggers the test token verifier and succeeds. -/
def testVerifier (tok : String) : Option String :=
  if tok == "validToken" then some "test-subject" else none

end LeaderApi

namespace ChainSigMain

/-- How the `Cli::SetupEnv` arm of `main` (main.rs lines 39–80) exits: normal
return, an early `?` return with an error, or the panic of
`signal::ctrl_c().await.expect(..)`. -/
inductive SetupOutcome where
  | ok
  | earlyErr
  | panicked
deriving DecidableEq, Repr

/-- Observation of one `SetupEnv` run: how it exited and whether
`utils::clear_local_sk_shares` (the release of locally stored secret key
shares, main.rs line 78) was executed. -/
structure SetupEnvResult where
  outcome : SetupOutcome
  cleanupRan : Bool
deriving DecidableEq, Repr

/-- The `Cli::SetupEnv` arm of `main` (main.rs lines 39–80).  `run(config,
&docker_client).await?` propagates an error before any cleanup; after the
prints, `signal::ctrl_c().await.expect(..)` panics on error; only after a
received Ctrl-C does `utils::clear_local_sk_shares(sk_local_path).await?`
run.  The three oracles are the results of `run`, of `ctrl_c`, and of
`clear_local_sk_shares`. -/
def setupEnv (runRes : Except Unit Unit) (ctrlcRes : Except Unit Unit)
    (clearRes : Except Unit Unit) : SetupEnvResult :=
  match runRes with
  | .error _ => ⟨.earlyErr, false⟩
  | .ok _ =>
      match ctrlcRes with
      | .error _ => ⟨.panicked, false⟩
      | .ok _ =>
          match clearRes with
          | .error _ => ⟨.earlyErr, true⟩
          | .ok _ => ⟨.ok, true⟩

end ChainSigMain

namespace Auth

/-- C1 (counterexample): the claim that `token()` proactively fetches a new
credential whenever the current time is within a fixed margin of at least ten
minutes of the cached credential's stored expiry is false: at the very instant
of the stored expiry — within any positive margin of it — `token()` still
reuses the cache and performs no fetch. -/
theorem no_proactive_refresh_before_stored_expiry : ¬ proactiveRefreshClaim := by
  rintro ⟨margin, hten, h⟩
  have hfetch := h cachedAt1000 ⟨TokenValue.Bearer "tok", 1000⟩ 1000
    (Except.ok ⟨"fresh"⟩) rfl le_rfl ?_
  · have hno : (cachedAt1000.token 1000 (Except.ok ⟨"fresh"⟩)).fetched = false := rfl
    rw [hfetch] at hno
    exact Bool.noConfusion hno
  · show (1000 : Int) - 1000 ≤ margin
    simp only [minutes] at hten
    omega

/-- C1 (amended): with a cached credential present, `token()` performs a fetch
exactly when the current time is strictly past the cached credential's stored
expiry — there is no proactive margin relative to the stored expiry; the
margin of the spec exists only in that a freshly fetched credential's stored
expiry is set 45 minutes after fetch time, short of the credential's actual
lifetime. -/
theorem token_refresh_exactly_after_stored_expiry (tm : TokenManager)
    (tok : Token) (now : Int) (fetch : Except FetchError AuthResponse)
    (h : tm.current_token = some tok) :
    ((tm.token now fetch).fetched = true ↔ tok.expiry < now) ∧
    ∀ ar, fetch = Except.ok ar → tok.expiry < now →
      (tm.token now fetch).state.current_token =
        some ⟨TokenValue.Bearer ar.access_token, now + minutes 45⟩ := by
  by_cases hexp : now ≤ tok.expiry
  · refine ⟨?_, ?_⟩
    · simp only [TokenManager.token, h, ge_iff_le, if_pos hexp]
      constructor
      · intro hfalse; exact Bool.noConfusion hfalse
      · intro hlt; exact absurd hlt (by omega)
    · intro ar _ hlt; exact absurd hlt (by omega)
  · refine ⟨?_, ?_⟩
    · cases fetch <;>
        simp only [TokenManager.token, TokenManager.refresh, h, ge_iff_le,
          if_neg hexp] <;>
        exact iff_of_true trivial (by omega)
    · rintro ar rfl _
      simp only [TokenManager.token, TokenManager.refresh, h, ge_iff_le,
        if_neg hexp]

/-- Witness for C1 (amended): a manager whose cached token has stored expiry
1000, called at time 2000 with a successful fetch, does fetch and stores the
new bearer token with expiry 2000 + 45 minutes. -/
theorem token_refresh_exactly_after_stored_expiry_witness :
    cachedAt1000.current_token = some ⟨TokenValue.Bearer "tok", 1000⟩ ∧
    (((cachedAt1000.token 2000 (Except.ok ⟨"fresh"⟩)).fetched = true ↔
        (1000 : Int) < 2000) ∧
      ∀ ar : AuthResponse,
        (Except.ok ⟨"fresh"⟩ : Except FetchError AuthResponse) = Except.ok ar →
        (1000 : Int) < 2000 →
        (cachedAt1000.token 2000 (Except.ok ⟨"fresh"⟩)).state.current_token =
          some ⟨TokenValue.Bearer ar.access_token, 2000 + minutes 45⟩) :=
  ⟨rfl, by
    exact token_refresh_exactly_after_stored_expiry cachedAt1000
      ⟨TokenValue.Bearer "tok", 1000⟩ 2000 (Except.ok ⟨"fresh"⟩) rfl⟩

/-- C2: whenever a cached token exists whose stored expiry is not earlier than
the current time, `token()` returns the cached bearer string, performs no
fetch, and leaves the whole manager state — in particular `current_token` —
unchanged. -/
theorem token_cache_hit (tm : TokenManager) (tok : Token) (now : Int)
    (fetch : Except FetchError AuthResponse)
    (hsome : tm.current_token = some tok) (hfresh : now ≤ tok.expiry) :
    (tm.token now fetch).result = Except.ok tok.value.render ∧
    (tm.token now fetch).fetched = false ∧
    (tm.token now fetch).state = tm := by
  simp [TokenManager.token, hsome, ge_iff_le, hfresh]

/-- Witness for C2: the manager with a token cached at expiry 1000, called at
time 1000, reuses the cache. -/
theorem token_cache_hit_witness :
    cachedAt1000.current_token = some ⟨TokenValue.Bearer "tok", 1000⟩ ∧
    (1000 : Int) ≤ 1000 ∧
    ((cachedAt1000.token 1000 (Except.error FetchError.http)).result =
        Except.ok (TokenValue.Bearer "tok").render ∧
      (cachedAt1000.token 1000 (Except.error FetchError.http)).fetched = false ∧
      (cachedAt1000.token 1000 (Except.error FetchError.http)).state =
        cachedAt1000) :=
  ⟨rfl, by omega,
    token_cache_hit cachedAt1000 ⟨TokenValue.Bearer "tok", 1000⟩ 1000
      (Except.error FetchError.http) rfl le_rfl⟩

/-- C8: if `token()` returns an error, the manager state — in particular the
cached `current_token` — is exactly what it was before the call. -/
theorem token_error_preserves_state (tm : TokenManager) (now : Int)
    (fetch : Except FetchError AuthResponse) (e : FetchError)
    (herr : (tm.token now fetch).result = Except.error e) :
    (tm.token now fetch).state = tm := by
  cases htm : tm.current_token with
  | none =>
      cases fetch with
      | error e2 => simp [TokenManager.token, TokenManager.refresh, htm]
      | ok ar => simp [TokenManager.token, TokenManager.refresh, htm] at herr
  | some tok =>
      by_cases hexp : now ≤ tok.expiry
      · simp [TokenManager.token, htm, ge_iff_le, if_pos hexp] at herr
      · cases fetch with
        | error e2 =>
            simp [TokenManager.token, TokenManager.refresh, htm, ge_iff_le,
              if_neg hexp]
        | ok ar =>
            simp [TokenManager.token, TokenManager.refresh, htm, ge_iff_le,
              if_neg hexp] at herr

/-- Witness for C8: a manager with no cached token, hit with an HTTP failure,
returns that error and keeps its state. -/
theorem token_error_preserves_state_witness :
    ((TokenManager.mk "scope" sampleCreds none).token 0
        (Except.error FetchError.http)).result =
      Except.error FetchError.http ∧
    ((TokenManager.mk "scope" sampleCreds none).token 0
        (Except.error FetchError.http)).state =
      TokenManager.mk "scope" sampleCreds none :=
  ⟨rfl,
    token_error_preserves_state (TokenManager.mk "scope" sampleCreds none) 0
      (Except.error FetchError.http) FetchError.http rfl⟩

/-- C9: every successful result of `token()` is the string `"Bearer "`
followed by an access token, in the cache-reuse case as well as after a fresh
fetch. -/
theorem token_ok_is_bearer (tm : TokenManager) (now : Int)
    (fetch : Except FetchError AuthResponse) (s : String)
    (hok : (tm.token now fetch).result = Except.ok s) :
    ∃ t : String, s = "Bearer " ++ t := by
  cases htm : tm.current_token with
  | none =>
      cases fetch with
      | error e => simp [TokenManager.token, TokenManager.refresh, htm] at hok
      | ok ar =>
          refine ⟨ar.access_token, ?_⟩
          simp [TokenManager.token, TokenManager.refresh, TokenValue.render,
            htm] at hok
          exact hok.symm
  | some tok =>
      obtain ⟨⟨x⟩, texp⟩ := tok
      by_cases hexp : now ≤ (texp : Int)
      · refine ⟨x, ?_⟩
        simp [TokenManager.token, TokenValue.render, htm, ge_iff_le,
          if_pos hexp] at hok
        exact hok.symm
      · cases fetch with
        | error e =>
            simp [TokenManager.token, TokenManager.refresh, htm, ge_iff_le,
              if_neg hexp] at hok
        | ok ar =>
            refine ⟨ar.access_token, ?_⟩
            simp [TokenManager.token, TokenManager.refresh, TokenValue.render,
              htm, ge_iff_le, if_neg hexp] at hok
            exact hok.symm

/-- Witness for C9: the cached call returning `"Bearer tok"` has the required
form. -/
theorem token_ok_is_bearer_witness :
    (cachedAt1000.token 1000 (Except.error FetchError.http)).result =
      Except.ok "Bearer tok" ∧
    ∃ t : String, "Bearer tok" = "Bearer " ++ t :=
  ⟨rfl,
    token_ok_is_bearer cachedAt1000 1000 (Except.error FetchError.http)
      "Bearer tok" rfl⟩

end Auth

namespace IntegrationTests

/-- Every node started by `with_nodes` holds the share whose index is one less
than its node index: the leader pairs index 1 with `sk_shares[0]`, sign node
`i` is started with `sk_shares[i - 1]`. -/
theorem index_eq_shareIdx_succ (n : Nat) (m : NodeInstance)
    (h : m ∈ startedNodes n) : m.index = m.shareIdx + 1 := by
  rcases List.mem_cons.mp h with rfl | hs
  · rfl
  · simp only [sign_nodes] at hs
    rcases List.mem_map.mp hs with ⟨k, _, rfl⟩
    rfl

/-- C10: in the cluster built by `with_nodes`, the leader node itself is one
of the started share-holders, under node index 1 with `sk_shares[0]`;
dedicated sign nodes are started exactly for the indices 2..=nodes; and every
started node's integer index `i` matches the share it holds,
`sk_shares[i - 1]`. -/
theorem with_nodes_topology (n : Nat) :
    leader_node ∈ startedNodes n ∧
    leader_node.index = 1 ∧ leader_node.shareIdx = 0 ∧
    (∀ m ∈ sign_nodes n, 2 ≤ m.index ∧ m.index ≤ n) ∧
    (∀ i, 2 ≤ i → i ≤ n → (⟨i, i - 1⟩ : NodeInstance) ∈ sign_nodes n) ∧
    ∀ m ∈ startedNodes n, m.index = m.shareIdx + 1 := by
  refine ⟨List.mem_cons_self _ _, rfl, rfl, ?_, ?_, index_eq_shareIdx_succ n⟩
  · intro m hm
    simp only [sign_nodes] at hm
    rcases List.mem_map.mp hm with ⟨k, hk, rfl⟩
    have := List.mem_range.mp hk
    have hx : (⟨k + 2, k + 1⟩ : NodeInstance).index = k + 2 := rfl
    rw [hx]
    exact ⟨by omega, by omega⟩
  · intro i h2 hn
    simp only [sign_nodes]
    refine List.mem_map.mpr ⟨i - 2, List.mem_range.mpr (by omega), ?_⟩
    simp only [NodeInstance.mk.injEq]
    omega

/-- Witness for C10: in the three-node cluster of the tests, sign node 2 has
index bounds 2 ≤ 2 ≤ 3, node index 3 is started with share 2, and node 2
holds share 1. -/
theorem with_nodes_topology_witness :
    (2 ≤ (⟨2, 1⟩ : NodeInstance).index ∧ (⟨2, 1⟩ : NodeInstance).index ≤ 3) ∧
    (⟨3, 3 - 1⟩ : NodeInstance) ∈ sign_nodes 3 ∧
    (⟨2, 1⟩ : NodeInstance).index = (⟨2, 1⟩ : NodeInstance).shareIdx + 1 :=
  ⟨(with_nodes_topology 3).2.2.2.1 ⟨2, 1⟩ (by decide),
   (with_nodes_topology 3).2.2.2.2.1 3 (by decide) (by decide),
   (with_nodes_topology 3).2.2.2.2.2 ⟨2, 1⟩ (by decide)⟩

/-- C6 (counterexample): in the cluster of the integration tests
(`with_nodes(4, 3, 3)`, so 3 started nodes), share `sk_shares[1]` is owned by
node 2, yet it is created by the test harness (`mpc_recovery::generate` runs
in the harness process) and handled there before being passed to
`SignNode::start` — a party other than the owning node creates and handles
it. -/
theorem share_handled_off_owning_node :
    shareCreator 1 = Party.harness ∧
    Party.harness ∈ shareHandlers 3 1 ∧
    Party.node 2 ∈ shareHandlers 3 1 ∧
    Party.harness ≠ Party.node 2 := by decide

/-- C6 (amended): shares are created centrally by the test harness (a trusted
dealer), not on the owning nodes; among the nodes, each share `sk_shares[j]`
is handed to at most the single node with index `j + 1`, so no share ever
reaches two different nodes. -/
theorem share_distribution_exclusive (n j : Nat) :
    shareCreator j = Party.harness ∧
    ∀ p ∈ shareHandlers n j, p = Party.harness ∨ p = Party.node (j + 1) := by
  refine ⟨rfl, ?_⟩
  intro p hp
  rcases List.mem_cons.mp hp with rfl | hp'
  · exact Or.inl rfl
  · right
    rcases List.mem_filterMap.mp hp' with ⟨m, hm, hmp⟩
    by_cases hj : m.shareIdx = j
    · rw [if_pos hj] at hmp
      injection hmp with hmp
      subst hmp
      rw [index_eq_shareIdx_succ n m hm, hj]
    · rw [if_neg hj] at hmp
      cases hmp

/-- Witness for C6 (amended): instantiated for share 1 and the party that is
node 2 in the three-node cluster. -/
theorem share_distribution_exclusive_witness :
    shareCreator 1 = Party.harness ∧
    (Party.node 2 = Party.harness ∨ Party.node 2 = Party.node (1 + 1)) :=
  ⟨(share_distribution_exclusive 3 1).1,
   (share_distribution_exclusive 3 1).2 (Party.node 2) (by decide)⟩

/-- C4: in the `test_trio` scenario — a key set of 4 shares with threshold
t = 2 (quorum t+1 = 3), only the 3 nodes started by `with_nodes(4, 3, 3)`
live at dispatch, so the holder of the fourth share is not running — signing
any 10-character payload completes with a signature that verifies against the
aggregate public key of the generated key set. -/
theorem test_trio_completed (coeffs : List Int) (payload : String)
    (_hlen : payload.length = 10) :
    ∃ pk shares,
      MpcRecovery.generate coeffs 4 2 = Except.ok (pk, shares) ∧
      shares.length = 4 ∧
      (startedNodes 3).length = 3 ∧
      (∀ m ∈ startedNodes 3, m.shareIdx ≠ 3) ∧
      ∃ sig,
        MpcRecovery.leaderOutcome pk ((startedNodes 3).map NodeInstance.index)
            payload = MpcRecovery.LeaderOutcome.Completed sig ∧
        MpcRecovery.verify pk.aggregate sig payload = true := by
  refine ⟨⟨2, MpcRecovery.polyEval (coeffs.take 3) 0⟩,
    (List.range 4).map fun i =>
      ⟨i + 1, MpcRecovery.polyEval (coeffs.take 3) (i + 1)⟩,
    ?_, by simp, rfl, by decide, ?_⟩
  · simp [MpcRecovery.generate]
  · refine ⟨_, rfl, ?_⟩
    simp [MpcRecovery.verify, MpcRecovery.leaderOutcome]

/-- Witness for C4: the scenario instantiated at the coefficient list
`[3, 1, 4]` and the 10-character payload `"abcdefghij"`. -/
theorem test_trio_completed_witness :
    "abcdefghij".length = 10 ∧
    ∃ pk shares,
      MpcRecovery.generate [3, 1, 4] 4 2 = Except.ok (pk, shares) ∧
      shares.length = 4 ∧
      (startedNodes 3).length = 3 ∧
      (∀ m ∈ startedNodes 3, m.shareIdx ≠ 3) ∧
      ∃ sig,
        MpcRecovery.leaderOutcome pk ((startedNodes 3).map NodeInstance.index)
            "abcdefghij" = MpcRecovery.LeaderOutcome.Completed sig ∧
        MpcRecovery.verify pk.aggregate sig "abcdefghij" = true :=
  ⟨by decide, test_trio_completed [3, 1, 4] "abcdefghij" (by decide)⟩

end IntegrationTests

namespace MpcRecovery

/-- C5: `generate(n, t)` fails with `InvalidParameters` exactly when `t ≥ n`
or `n = 0`; on all other parameters it succeeds with a public key set and `n`
secret key shares. -/
theorem generate_invalid_params_iff (coeffs : List Int) (n t : Nat) :
    (generate coeffs n t = Except.error GenerateError.InvalidParameters ↔
      t ≥ n ∨ n = 0) ∧
    (t < n → ∃ pk shares, generate coeffs n t = Except.ok (pk, shares) ∧
      shares.length = n) := by
  by_cases hc : t ≥ n ∨ n = 0
  · refine ⟨iff_of_true (by simp [generate, hc]) hc, ?_⟩
    intro hlt
    exact absurd hlt (by omega)
  · refine ⟨iff_of_false (by simp [generate, hc]) hc, ?_⟩
    intro _
    refine ⟨⟨t, polyEval (coeffs.take (t + 1)) 0⟩,
      (List.range n).map fun i => ⟨i + 1, polyEval (coeffs.take (t + 1)) (i + 1)⟩,
      ?_, by simp⟩
    simp [generate, hc]

/-- Witness for C5: `generate` at n = 3, t = 2 succeeds with 3 shares. -/
theorem generate_invalid_params_iff_witness :
    (2 : Nat) < 3 ∧
    ∃ pk shares, generate [1, 2, 3] 3 2 = Except.ok (pk, shares) ∧
      shares.length = 3 :=
  ⟨by decide, (generate_invalid_params_iff [1, 2, 3] 3 2).2 (by decide)⟩

end MpcRecovery

namespace LeaderApi

/-- C3: after a `new_account` request with a valid identity token for account
`a` and public key `pk` completes Ok, the on-chain access keys of `a` are
exactly `[pk]` — `pk` is present and is the only access key. -/
theorem new_account_binds_exactly_key (verify : String → Option String)
    (st st' : ChainState) (a tok pk : String)
    (h : new_account verify st a tok pk = Except.ok st') :
    viewAccessKeys st' a = [pk] ∧
    pk ∈ viewAccessKeys st' a ∧
    ∀ k ∈ viewAccessKeys st' a, k = pk := by
  have hkeys : viewAccessKeys st' a = [pk] := by
    unfold new_account at h
    cases hv : verify tok with
    | none => rw [hv] at h; cases h
    | some s =>
        rw [hv] at h
        by_cases hc : (st.accounts.map Prod.fst).contains a
        · rw [if_pos hc] at h; cases h
        · rw [if_neg hc] at h
          injection h with h'
          subst h'
          simp [viewAccessKeys]
  exact ⟨hkeys, by simp [hkeys], by simp [hkeys]⟩

/-- Witness for C3: a concrete `new_account` run from the empty chain with the
test verifier and the test token `"validToken"`. -/
theorem new_account_binds_exactly_key_witness :
    new_account testVerifier ⟨[]⟩ "mpc-recovery-abc.test.near" "validToken"
        "ed25519:PKNEW" =
      Except.ok ⟨[("mpc-recovery-abc.test.near", ["ed25519:PKNEW"])]⟩ ∧
    (viewAccessKeys ⟨[("mpc-recovery-abc.test.near", ["ed25519:PKNEW"])]⟩
        "mpc-recovery-abc.test.near" = ["ed25519:PKNEW"] ∧
      "ed25519:PKNEW" ∈
        viewAccessKeys ⟨[("mpc-recovery-abc.test.near", ["ed25519:PKNEW"])]⟩
          "mpc-recovery-abc.test.near" ∧
      ∀ k ∈ viewAccessKeys ⟨[("mpc-recovery-abc.test.near", ["ed25519:PKNEW"])]⟩
          "mpc-recovery-abc.test.near", k = "ed25519:PKNEW") :=
  ⟨rfl,
    new_account_binds_exactly_key testVerifier ⟨[]⟩
      ⟨[("mpc-recovery-abc.test.near", ["ed25519:PKNEW"])]⟩
      "mpc-recovery-abc.test.near" "validToken" "ed25519:PKNEW" rfl⟩

end LeaderApi

namespace ChainSigMain

/-- C7 (counterexample): when `run` fails, the `?` at main.rs line 50
propagates the error before `clear_local_sk_shares` is ever reached — the
release routine does not run on this error exit path. -/
theorem cleanup_skipped_on_run_error :
    setupEnv (Except.error ()) (Except.ok ()) (Except.ok ()) =
      ⟨SetupOutcome.earlyErr, false⟩ := rfl

/-- C7 (amended): the release of locally stored secret key shares runs exactly
on the paths where `run` succeeded and the Ctrl-C listener returned normally;
an error from `run` exits early without it, and a failing Ctrl-C listener
panics without it. -/
theorem cleanup_iff_run_and_ctrlc_ok (runRes ctrlcRes clearRes : Except Unit Unit) :
    (setupEnv runRes ctrlcRes clearRes).cleanupRan =
      ((match runRes with | .ok _ => true | .error _ => false) &&
        (match ctrlcRes with | .ok _ => true | .error _ => false)) := by
  cases runRes <;> cases ctrlcRes <;> cases clearRes <;> rfl

end ChainSigMain
